import Mathlib

/-!
# Temporary-file registry and reaper: a shallow embedding

This file embeds the temporary-file lifecycle manager of the
markdown-converter-ui repository (`src/config.py`, `src/utils/cleanup.py`,
`src/utils/file_helpers.py`) and proves properties of the embedding.

Modelling conventions:
* Timestamps are integers counting seconds (`datetime` subtraction followed
  by `total_seconds()` becomes integer subtraction).
* The backing temp directory is a finite association list from path to a
  `FileEntry` (file contents as a byte list, and the filesystem mtime).
* The in-memory registry `temp_files` (a Python dict `path -> datetime`)
  is an association list from path to creation time.  Dict keys are unique,
  so key removal is modelled by filtering out every pair with that key.
* Fallible OS primitives (`os.unlink`, `os.stat`, directory listing) are
  modelled in `Except`: the state carries injection sets naming the paths
  whose unlink or stat raises, and a flag making the directory listing
  raise.  A Python `try/except` becomes a `match` on the `Except` value.
* `uuid.uuid4()` and `datetime.now()` are ambient inputs, passed as
  explicit parameters.
-/

abbrev FPath := String

/-- One physical file in the backing directory: its byte contents and its
filesystem modification time (seconds). -/
structure FileEntry where
  content : List Nat
  mtime : Int
deriving Repr, DecidableEq

/-- The backing directory: path to file entry. -/
abbrev Fs := List (FPath × FileEntry)

/-- Whole modelled state: the backing directory, the in-memory
`temp_files` dict, and the failure injections for the fallible OS
primitives. -/
structure St where
  fs : Fs
  tempFiles : List (FPath × Int)
  unlinkFails : List FPath
  statFails : List FPath
  listFails : Bool
deriving Repr, DecidableEq

/-- `MAX_FILE_SIZE_MB = 50` from `src/config.py`. -/
def MAX_FILE_SIZE_MB : Nat := 50

/-- `FILE_EXPIRY_HOURS = 2` from `src/config.py`. -/
def FILE_EXPIRY_HOURS : Int := 2

/-- The expiry threshold in seconds, `FILE_EXPIRY_HOURS * 3600`, exactly as
it appears in the comparisons of `cleanup.py`. -/
def expirySeconds : Int := FILE_EXPIRY_HOURS * 3600

/-- `TEMP_DIR` from `src/config.py`: OS temp root plus the fixed
subdirectory name. -/
def TEMP_DIR : String := "/tmp/markdown-converter-ui"

/-- `os.path.exists` on the modelled directory (never raises). -/
def fsHas (fs : Fs) (p : FPath) : Bool :=
  (fs.find? (fun e => e.1 == p)).isSome

/-- Remove a path from the modelled directory (the effect of a successful
`os.unlink`). -/
def fsRemove (fs : Fs) (p : FPath) : Fs :=
  fs.filter (fun e => !(e.1 == p))

/-- The filesystem mtime of a path (meaningful when `fsHas` holds). -/
def mtimeOf (fs : Fs) (p : FPath) : Int :=
  match fs.find? (fun e => e.1 == p) with
  | some e => e.2.mtime
  | none => 0

/-- Read back a file's bytes (`open(path, 'rb').read()`), `none` if the
path is absent. -/
def readFile (fs : Fs) (p : FPath) : Option (List Nat) :=
  (fs.find? (fun e => e.1 == p)).map (fun e => e.2.content)

/-- `path in temp_files` membership test on the modelled dict. -/
def mapHas (m : List (FPath × Int)) (p : FPath) : Bool :=
  (m.find? (fun e => e.1 == p)).isSome

/-- `os.unlink` / `Path.unlink`: raises when the path is in the injected
failure set, or when the file does not exist. -/
def osUnlinkE (uf : List FPath) (fs : Fs) (p : FPath) : Except String Fs :=
  if p ∈ uf then Except.error "unlink failed"
  else if fsHas fs p then Except.ok (fsRemove fs p)
  else Except.error "FileNotFoundError"

/-- `os.stat(path).st_mtime`: raises when the path is in the injected
failure set, or when the file does not exist. -/
def statMtimeE (sf : List FPath) (fs : Fs) (p : FPath) : Except String Int :=
  if p ∈ sf then Except.error "stat failed"
  else match fs.find? (fun e => e.1 == p) with
       | some e => Except.ok e.2.mtime
       | none => Except.error "FileNotFoundError"

/-- `for file_path in files_to_remove: temp_files.pop(file_path, None)`
(`cleanup.py` lines 36-38 and 136-138). -/
def popAll : List (FPath × Int) → List FPath → List (FPath × Int)
  | m, [] => m
  | m, p :: ps => popAll (m.filter (fun e => !(e.1 == p))) ps

/--
The tracked-pass loop over `list(temp_files.items())`.  This loop appears
verbatim twice in `cleanup.py`: lines 24-34 (inside
`cleanup_expired_files`) and lines 124-134 (inside `manual_cleanup`):

```python
for file_path, creation_time in list(temp_files.items()):
    time_diff = current_time - creation_time
    if time_diff.total_seconds() > FILE_EXPIRY_HOURS * 3600:
        try:
            if os.path.exists(file_path):
                os.unlink(file_path)
            files_to_remove.append(file_path)
        except Exception as e:
            logger.error(...)
```

Returns the directory after the unlink attempts, plus `files_to_remove`.
Note that on an unlink exception the `append` is skipped (it sits after
the `unlink` call inside the `try`).
-/
def trackedLoop (t : Int) (uf : List FPath) : Fs → List (FPath × Int) → Fs × List FPath
  | fs, [] => (fs, [])
  | fs, (p, c) :: rest =>
    if t - c > expirySeconds then
      if fsHas fs p then
        match osUnlinkE uf fs p with
        | Except.ok fs' =>
          let r := trackedLoop t uf fs' rest
          (r.1, p :: r.2)
        | Except.error _ => trackedLoop t uf fs rest
      else
        let r := trackedLoop t uf fs rest
        (r.1, p :: r.2)
    else trackedLoop t uf fs rest

/--
The untracked-pass loop over `TEMP_DIR.glob("*")` (`cleanup.py` lines
61-70).  The per-path `stat` is NOT inside the inner `try`, so a stat
failure escapes the loop (to be caught by the outer `try` of
`cleanup_untracked_files`); an unlink failure is caught by the inner
`try` and the loop continues.  The returned `Option String` is the
exception, if any, that escaped the loop; the directory returned is the
one reached when the loop stopped.
-/
def untrackedLoop (t : Int) (m : List (FPath × Int)) (uf sf : List FPath) :
    Fs → List FPath → Fs × Option String
  | fs, [] => (fs, none)
  | fs, p :: rest =>
    if ¬ mapHas m p ∧ fsHas fs p then
      match statMtimeE sf fs p with
      | Except.error e => (fs, some e)
      | Except.ok m₀ =>
        if t - m₀ > expirySeconds then
          match osUnlinkE uf fs p with
          | Except.ok fs' => untrackedLoop t m uf sf fs' rest
          | Except.error _ => untrackedLoop t m uf sf fs rest
        else untrackedLoop t m uf sf fs rest
    else untrackedLoop t m uf sf fs rest

/-- The body of `cleanup_untracked_files` before its outer
`try/except`: the directory listing (which may raise) followed by the
untracked loop.  The `Option String` is the exception escaping the body,
if any. -/
def untrackedBody (t : Int) (st : St) : St × Option String :=
  if st.listFails then (st, some "glob failed")
  else
    let r := untrackedLoop t st.tempFiles st.unlinkFails st.statFails st.fs
               (st.fs.map Prod.fst)
    ({ st with fs := r.1 }, r.2)

/-- `cleanup_untracked_files` (`cleanup.py` lines 50-72): the body wrapped
in `try/except Exception`, which logs and returns with whatever state the
body reached. -/
def cleanup_untracked_files (t : Int) (st : St) : St :=
  (untrackedBody t st).1

/-- The body of one iteration of the `while True:` loop of
`cleanup_expired_files` (`cleanup.py` lines 19-41), before the outer
`try/except`: tracked pass, pops, then the untracked pass.  The
`Option String` is the exception escaping the body, if any; every
fallible statement inside is already wrapped in a finer `try` (the
per-file `try` of the tracked loop, and `cleanup_untracked_files`' own
outer `try`), so the body's exception slot is `none`. -/
def sweepBody (t : Int) (st : St) : St × Option String :=
  let r := trackedLoop t st.unlinkFails st.fs st.tempFiles
  let st₁ : St := { st with fs := r.1, tempFiles := popAll st.tempFiles r.2 }
  (cleanup_untracked_files t st₁, none)

/-- One sweep of the Reaper: one iteration of the `while True:` body of
`cleanup_expired_files`, with the outer `except Exception` catching (and
logging) anything that escaped the body. -/
def cleanup_sweep_once (t : Int) (st : St) : St :=
  match sweepBody t st with
  | (st', _) => st'

/-- `manual_cleanup` (`cleanup.py` lines 116-143): tracked pass, pops,
`cleanup_untracked_files(current_time)`, and `return len(files_to_remove)`. -/
def manual_cleanup (t : Int) (st : St) : St × Nat :=
  let r := trackedLoop t st.unlinkFails st.fs st.tempFiles
  let st₁ : St := { st with fs := r.1, tempFiles := popAll st.tempFiles r.2 }
  (cleanup_untracked_files t st₁, r.2.length)

/-- `is_file_expired` (`cleanup.py` lines 75-103): inside a
`try/except` returning `False`, it returns `False` when the path does not
exist, otherwise compares `now - st_mtime` strictly against
`expiry_hours * 3600`. -/
def is_file_expired (now : Int) (expiry_hours : Int) (st : St) (p : FPath) : Bool :=
  if ¬ fsHas st.fs p then false
  else match statMtimeE st.statFails st.fs p with
       | Except.error _ => false
       | Except.ok m => decide (now - m > expiry_hours * 3600)

/-- `os.path.splitext(name)[1]` (posix): the extension starts at the last
dot of the basename, unless every character of the basename before that
dot is itself a dot. -/
def splitextExt (name : String) : String :=
  let base := (name.data.reverse.takeWhile (fun c => c ≠ '/')).reverse
  let core := base.dropWhile (fun c => c = '.')
  let r := core.reverse
  let pre := r.takeWhile (fun c => c ≠ '.')
  if pre.length = r.length then ""
  else String.mk ('.' :: pre.reverse)

/-- The result of `save_uploaded_file`: either the `st.error` size-limit
report (carrying the configured limit in MB and the actual size in bytes,
the two quantities interpolated into the message) followed by
`return None`, or the returned temp-file path. -/
inductive SaveResult where
  | sizeError (limitMB : Nat) (actualBytes : Nat)
  | saved (path : FPath)
deriving Repr, DecidableEq

/-- `save_uploaded_file` (`file_helpers.py` lines 55-92).  `now` models
`datetime.datetime.now()`, `uid` models `str(uuid.uuid4())`, `name` is
`uploaded_file.name` and `content` is `uploaded_file.getvalue()`.
`open(path, 'wb')` truncates, so the written entry replaces any previous
entry at that path, and the dict assignment `temp_files[path] = now`
replaces any previous binding of that key. -/
def save_uploaded_file (now : Int) (uid : String) (name : String)
    (content : List Nat) (st : St) : SaveResult × St :=
  let file_size := content.length
  if file_size > MAX_FILE_SIZE_MB * 1024 * 1024 then
    (SaveResult.sizeError MAX_FILE_SIZE_MB file_size, st)
  else
    let file_ext := splitextExt name
    let temp_file_path := TEMP_DIR ++ "/" ++ uid ++ file_ext
    let fs' := (temp_file_path, ⟨content, now⟩) :: fsRemove st.fs temp_file_path
    let tf' := (temp_file_path, now) :: (st.tempFiles.filter (fun e => !(e.1 == temp_file_path)))
    (SaveResult.saved temp_file_path, { st with fs := fs', tempFiles := tf' })

/-! ## Basic lemmas about the filesystem and dict primitives -/

theorem fsHas_iff {fs : Fs} {p : FPath} :
    fsHas fs p = true ↔ ∃ e ∈ fs, e.1 = p := by
  simp [fsHas, List.find?_isSome]

theorem fsRemove_find?_ne {fs : Fs} {p r : FPath} (h : r ≠ p) :
    (fsRemove fs p).find? (fun e => e.1 == r) = fs.find? (fun e => e.1 == r) := by
  induction fs with
  | nil => rfl
  | cons hd tl ih =>
    by_cases hp : hd.1 = p
    · have hr : ¬ hd.1 = r := by rw [hp]; exact fun hc => h hc.symm
      rw [show fsRemove (hd :: tl) p = fsRemove tl p by simp [fsRemove, hp]]
      rw [ih, List.find?_cons_of_neg _ (by simpa using hr)]
    · rw [show fsRemove (hd :: tl) p = hd :: fsRemove tl p by simp [fsRemove, hp]]
      by_cases hr : hd.1 = r
      · rw [List.find?_cons_of_pos _ (by simpa using hr),
          List.find?_cons_of_pos _ (by simpa using hr)]
      · rw [List.find?_cons_of_neg _ (by simpa using hr),
          List.find?_cons_of_neg _ (by simpa using hr), ih]

theorem fsHas_fsRemove_ne {fs : Fs} {p r : FPath} (h : r ≠ p) :
    fsHas (fsRemove fs p) r = fsHas fs r := by
  simp [fsHas, fsRemove_find?_ne h]

theorem mtimeOf_fsRemove_ne {fs : Fs} {p r : FPath} (h : r ≠ p) :
    mtimeOf (fsRemove fs p) r = mtimeOf fs r := by
  simp [mtimeOf, fsRemove_find?_ne h]

theorem fsHas_cons {q : FPath} {e : FileEntry} {fs : Fs} {p : FPath} :
    fsHas ((q, e) :: fs) p = ((q == p) || fsHas fs p) := by
  cases hq : ((q : FPath) == p) with
  | true =>
    have hfind : (((q, e) : FPath × FileEntry) :: fs).find? (fun e => e.1 == p)
        = some (q, e) := List.find?_cons_of_pos _ hq
    simp [fsHas, hfind]
  | false =>
    have hfind : (((q, e) : FPath × FileEntry) :: fs).find? (fun e => e.1 == p)
        = fs.find? (fun e => e.1 == p) := List.find?_cons_of_neg _ (by simp [hq])
    simp [fsHas, hfind]

theorem mtimeOf_cons_self {q : FPath} {e : FileEntry} {fs : Fs} :
    mtimeOf ((q, e) :: fs) q = e.mtime := by
  have hfind : (((q, e) : FPath × FileEntry) :: fs).find? (fun x => x.1 == q)
      = some (q, e) := List.find?_cons_of_pos _ (by simp)
  simp [mtimeOf, hfind]

theorem fsRemove_cons_ne {q : FPath} {e : FileEntry} {fs : Fs} {p : FPath}
    (h : q ≠ p) : fsRemove ((q, e) :: fs) p = (q, e) :: fsRemove fs p := by
  simp [fsRemove, h]

theorem fsHas_fsRemove_self {fs : Fs} {p : FPath} :
    fsHas (fsRemove fs p) p = false := by
  induction fs with
  | nil => simp [fsHas, fsRemove]
  | cons hd tl ih =>
    obtain ⟨q, e⟩ := hd
    by_cases hp : q = p
    · rw [show fsRemove ((q, e) :: tl) p = fsRemove tl p by simp [fsRemove, hp]]
      exact ih
    · rw [fsRemove_cons_ne hp, fsHas_cons, ih]
      simp [hp]

theorem mapHas_iff {m : List (FPath × Int)} {p : FPath} :
    mapHas m p = true ↔ ∃ e ∈ m, e.1 = p := by
  simp [mapHas, List.find?_isSome]

theorem mapHas_false_iff {m : List (FPath × Int)} {p : FPath} :
    mapHas m p = false ↔ ∀ c, (p, c) ∉ m := by
  rw [← Bool.not_eq_true, mapHas_iff]
  constructor
  · intro h c hc
    exact h ⟨(p, c), hc, rfl⟩
  · rintro h ⟨⟨q, c⟩, hm, rfl⟩
    exact h c hm

theorem mem_popAll {m : List (FPath × Int)} {ps : List FPath} {e : FPath × Int} :
    e ∈ popAll m ps ↔ e ∈ m ∧ e.1 ∉ ps := by
  induction ps generalizing m with
  | nil => simp [popAll]
  | cons p ps ih =>
    simp only [popAll, ih, List.mem_filter, List.mem_cons]
    constructor
    · rintro ⟨⟨hm, hne⟩, hps⟩
      simp only [bne_iff_ne, ne_eq, Bool.not_eq_true', beq_eq_false_iff_ne] at hne
      exact ⟨hm, by tauto⟩
    · rintro ⟨hm, hnot⟩
      push_neg at hnot
      refine ⟨⟨hm, ?_⟩, hnot.2⟩
      simp [hnot.1]

/-! ## Step equations for the two loops -/

theorem osUnlinkE_ok {uf : List FPath} {fs : Fs} {p : FPath}
    (huf : p ∉ uf) (hfs : fsHas fs p = true) :
    osUnlinkE uf fs p = Except.ok (fsRemove fs p) := by
  simp [osUnlinkE, huf, hfs]

theorem osUnlinkE_fail {uf : List FPath} {fs : Fs} {p : FPath}
    (huf : p ∈ uf) : osUnlinkE uf fs p = Except.error "unlink failed" := by
  simp [osUnlinkE, huf]

theorem statMtimeE_of_fsHas {sf : List FPath} {fs : Fs} {r : FPath}
    (h1 : r ∉ sf) (h2 : fsHas fs r = true) :
    statMtimeE sf fs r = Except.ok (mtimeOf fs r) := by
  unfold statMtimeE mtimeOf
  rw [if_neg h1]
  cases hfind : fs.find? (fun e => e.1 == r) with
  | some e => simp
  | none => simp [fsHas, hfind] at h2

theorem trackedLoop_cons_not_expired {t : Int} {uf : List FPath} {fs : Fs}
    {p : FPath} {c : Int} {rest : List (FPath × Int)}
    (h : ¬ t - c > expirySeconds) :
    trackedLoop t uf fs ((p, c) :: rest) = trackedLoop t uf fs rest := by
  simp [trackedLoop, h]

theorem trackedLoop_cons_gone {t : Int} {uf : List FPath} {fs : Fs}
    {p : FPath} {c : Int} {rest : List (FPath × Int)}
    (hexp : t - c > expirySeconds) (hfs : fsHas fs p = false) :
    trackedLoop t uf fs ((p, c) :: rest)
      = ((trackedLoop t uf fs rest).1, p :: (trackedLoop t uf fs rest).2) := by
  simp [trackedLoop, hexp, hfs]

theorem trackedLoop_cons_unlink_fail {t : Int} {uf : List FPath} {fs : Fs}
    {p : FPath} {c : Int} {rest : List (FPath × Int)}
    (hexp : t - c > expirySeconds) (hfs : fsHas fs p = true) (huf : p ∈ uf) :
    trackedLoop t uf fs ((p, c) :: rest) = trackedLoop t uf fs rest := by
  simp [trackedLoop, hexp, hfs, osUnlinkE_fail huf]

theorem trackedLoop_cons_unlink_ok {t : Int} {uf : List FPath} {fs : Fs}
    {p : FPath} {c : Int} {rest : List (FPath × Int)}
    (hexp : t - c > expirySeconds) (hfs : fsHas fs p = true) (huf : p ∉ uf) :
    trackedLoop t uf fs ((p, c) :: rest)
      = ((trackedLoop t uf (fsRemove fs p) rest).1,
          p :: (trackedLoop t uf (fsRemove fs p) rest).2) := by
  simp [trackedLoop, hexp, hfs, osUnlinkE_ok huf hfs]

theorem untrackedLoop_cons_skip_mapped {t : Int} {m : List (FPath × Int)}
    {uf sf : List FPath} {fs : Fs} {r : FPath} {rest : List FPath}
    (hm : mapHas m r = true) :
    untrackedLoop t m uf sf fs (r :: rest) = untrackedLoop t m uf sf fs rest := by
  simp [untrackedLoop, hm]

theorem untrackedLoop_cons_skip_gone {t : Int} {m : List (FPath × Int)}
    {uf sf : List FPath} {fs : Fs} {r : FPath} {rest : List FPath}
    (hfs : fsHas fs r = false) :
    untrackedLoop t m uf sf fs (r :: rest) = untrackedLoop t m uf sf fs rest := by
  simp [untrackedLoop, hfs]

theorem untrackedLoop_cons_stat_fail {t : Int} {m : List (FPath × Int)}
    {uf sf : List FPath} {fs : Fs} {r : FPath} {rest : List FPath}
    (hm : mapHas m r = false) (hfs : fsHas fs r = true) (hsf : r ∈ sf) :
    untrackedLoop t m uf sf fs (r :: rest) = (fs, some "stat failed") := by
  simp [untrackedLoop, hm, hfs, statMtimeE, hsf]

theorem untrackedLoop_cons_not_expired {t : Int} {m : List (FPath × Int)}
    {uf sf : List FPath} {fs : Fs} {r : FPath} {rest : List FPath}
    (hm : mapHas m r = false) (hfs : fsHas fs r = true) (hsf : r ∉ sf)
    (h : ¬ t - mtimeOf fs r > expirySeconds) :
    untrackedLoop t m uf sf fs (r :: rest) = untrackedLoop t m uf sf fs rest := by
  simp [untrackedLoop, hm, hfs, statMtimeE_of_fsHas hsf hfs, h]

theorem untrackedLoop_cons_unlink_ok {t : Int} {m : List (FPath × Int)}
    {uf sf : List FPath} {fs : Fs} {r : FPath} {rest : List FPath}
    (hm : mapHas m r = false) (hfs : fsHas fs r = true) (hsf : r ∉ sf)
    (hexp : t - mtimeOf fs r > expirySeconds) (huf : r ∉ uf) :
    untrackedLoop t m uf sf fs (r :: rest)
      = untrackedLoop t m uf sf (fsRemove fs r) rest := by
  simp [untrackedLoop, hm, hfs, statMtimeE_of_fsHas hsf hfs, hexp,
    osUnlinkE_ok huf hfs]

theorem untrackedLoop_cons_unlink_fail {t : Int} {m : List (FPath × Int)}
    {uf sf : List FPath} {fs : Fs} {r : FPath} {rest : List FPath}
    (hm : mapHas m r = false) (hfs : fsHas fs r = true) (hsf : r ∉ sf)
    (hexp : t - mtimeOf fs r > expirySeconds) (huf : r ∈ uf) :
    untrackedLoop t m uf sf fs (r :: rest) = untrackedLoop t m uf sf fs rest := by
  simp [untrackedLoop, hm, hfs, statMtimeE_of_fsHas hsf hfs, hexp,
    osUnlinkE_fail huf]

/-! ## Characterisation of the tracked pass -/

/-- Which paths end up in `files_to_remove`: exactly the paths with an
expired entry, except those whose file exists and whose unlink raises
(for those the `append` after `os.unlink` is skipped). -/
theorem trackedLoop_mem_snd {t : Int} {uf : List FPath} :
    ∀ {items : List (FPath × Int)} {fs : Fs} {p : FPath},
      p ∈ (trackedLoop t uf fs items).2 ↔
        ∃ c, (p, c) ∈ items ∧ t - c > expirySeconds ∧
          (p ∉ uf ∨ fsHas fs p = false) := by
  intro items
  induction items with
  | nil => intro fs p; simp [trackedLoop]
  | cons hd tl ih =>
    intro fs p
    obtain ⟨q, c₀⟩ := hd
    by_cases hexp : t - c₀ > expirySeconds
    · by_cases hfs : fsHas fs q = true
      · by_cases huf : q ∈ uf
        · rw [trackedLoop_cons_unlink_fail hexp hfs huf, ih]
          constructor
          · rintro ⟨c, hc, h1, h2⟩
            exact ⟨c, List.mem_cons_of_mem _ hc, h1, h2⟩
          · rintro ⟨c, hc, h1, h2⟩
            rcases List.mem_cons.mp hc with heq | hmem
            · rw [Prod.mk.injEq] at heq
              obtain ⟨hpq, _⟩ := heq
              subst hpq
              rcases h2 with h2 | h2
              · exact absurd huf h2
              · rw [hfs] at h2; cases h2
            · exact ⟨c, hmem, h1, h2⟩
        · rw [trackedLoop_cons_unlink_ok hexp hfs huf]
          by_cases hpq : p = q
          · subst hpq
            constructor
            · intro _
              exact ⟨c₀, List.mem_cons_self _ _, hexp, Or.inl huf⟩
            · intro _
              exact List.mem_cons_self _ _
          · rw [show (p ∈ ((trackedLoop t uf (fsRemove fs q) tl).1,
                  q :: (trackedLoop t uf (fsRemove fs q) tl).2).2)
                ↔ p ∈ (trackedLoop t uf (fsRemove fs q) tl).2 by
              simp [List.mem_cons, hpq]]
            rw [ih, fsHas_fsRemove_ne hpq]
            constructor
            · rintro ⟨c, hc, h1, h2⟩
              exact ⟨c, List.mem_cons_of_mem _ hc, h1, h2⟩
            · rintro ⟨c, hc, h1, h2⟩
              rcases List.mem_cons.mp hc with heq | hmem
              · rw [Prod.mk.injEq] at heq
                exact absurd heq.1 hpq
              · exact ⟨c, hmem, h1, h2⟩
      · rw [Bool.not_eq_true] at hfs
        rw [trackedLoop_cons_gone hexp hfs]
        by_cases hpq : p = q
        · subst hpq
          constructor
          · intro _
            exact ⟨c₀, List.mem_cons_self _ _, hexp, Or.inr hfs⟩
          · intro _
            exact List.mem_cons_self _ _
        · rw [show (p ∈ ((trackedLoop t uf fs tl).1,
                q :: (trackedLoop t uf fs tl).2).2)
              ↔ p ∈ (trackedLoop t uf fs tl).2 by simp [List.mem_cons, hpq]]
          rw [ih]
          constructor
          · rintro ⟨c, hc, h1, h2⟩
            exact ⟨c, List.mem_cons_of_mem _ hc, h1, h2⟩
          · rintro ⟨c, hc, h1, h2⟩
            rcases List.mem_cons.mp hc with heq | hmem
            · rw [Prod.mk.injEq] at heq
              exact absurd heq.1 hpq
            · exact ⟨c, hmem, h1, h2⟩
    · rw [trackedLoop_cons_not_expired hexp, ih]
      constructor
      · rintro ⟨c, hc, h1, h2⟩
        exact ⟨c, List.mem_cons_of_mem _ hc, h1, h2⟩
      · rintro ⟨c, hc, h1, h2⟩
        rcases List.mem_cons.mp hc with heq | hmem
        · rw [Prod.mk.injEq] at heq
          obtain ⟨hpq, hcc⟩ := heq
          subst hcc
          exact absurd h1 hexp
        · exact ⟨c, hmem, h1, h2⟩

/-- Which files survive the tracked pass on disk: a file is gone from the
directory afterwards exactly when it was gone before, or some expired
entry named it and its unlink did not raise. -/
theorem trackedLoop_fsHas_fst {t : Int} {uf : List FPath} :
    ∀ {items : List (FPath × Int)} {fs : Fs} {p : FPath},
      fsHas (trackedLoop t uf fs items).1 p = true ↔
        fsHas fs p = true ∧
          ¬ ∃ c, (p, c) ∈ items ∧ t - c > expirySeconds ∧ p ∉ uf := by
  intro items
  induction items with
  | nil => intro fs p; simp [trackedLoop]
  | cons hd tl ih =>
    intro fs p
    obtain ⟨q, c₀⟩ := hd
    by_cases hexp : t - c₀ > expirySeconds
    · by_cases hfs : fsHas fs q = true
      · by_cases huf : q ∈ uf
        · rw [trackedLoop_cons_unlink_fail hexp hfs huf, ih]
          constructor
          · rintro ⟨h1, h2⟩
            refine ⟨h1, ?_⟩
            rintro ⟨c, hc, hce, hcu⟩
            rcases List.mem_cons.mp hc with heq | hmem
            · rw [Prod.mk.injEq] at heq
              exact hcu (heq.1 ▸ huf)
            · exact h2 ⟨c, hmem, hce, hcu⟩
          · rintro ⟨h1, h2⟩
            exact ⟨h1, fun ⟨c, hc, hce, hcu⟩ =>
              h2 ⟨c, List.mem_cons_of_mem _ hc, hce, hcu⟩⟩
        · rw [trackedLoop_cons_unlink_ok hexp hfs huf]
          rw [show fsHas ((trackedLoop t uf (fsRemove fs q) tl).1,
              q :: (trackedLoop t uf (fsRemove fs q) tl).2).1 p
              = fsHas (trackedLoop t uf (fsRemove fs q) tl).1 p from rfl, ih]
          by_cases hpq : p = q
          · subst hpq
            constructor
            · rintro ⟨h1, _⟩
              rw [fsHas_fsRemove_self] at h1
              cases h1
            · rintro ⟨_, h2⟩
              exact absurd ⟨c₀, List.mem_cons_self _ _, hexp, huf⟩ h2
          · rw [fsHas_fsRemove_ne hpq]
            constructor
            · rintro ⟨h1, h2⟩
              refine ⟨h1, ?_⟩
              rintro ⟨c, hc, hce, hcu⟩
              rcases List.mem_cons.mp hc with heq | hmem
              · rw [Prod.mk.injEq] at heq
                exact absurd heq.1 hpq
              · exact h2 ⟨c, hmem, hce, hcu⟩
            · rintro ⟨h1, h2⟩
              exact ⟨h1, fun ⟨c, hc, hce, hcu⟩ =>
                h2 ⟨c, List.mem_cons_of_mem _ hc, hce, hcu⟩⟩
      · rw [Bool.not_eq_true] at hfs
        rw [trackedLoop_cons_gone hexp hfs]
        rw [show fsHas ((trackedLoop t uf fs tl).1,
            q :: (trackedLoop t uf fs tl).2).1 p
            = fsHas (trackedLoop t uf fs tl).1 p from rfl, ih]
        constructor
        · rintro ⟨h1, h2⟩
          refine ⟨h1, ?_⟩
          rintro ⟨c, hc, hce, hcu⟩
          rcases List.mem_cons.mp hc with heq | hmem
          · rw [Prod.mk.injEq] at heq
            rw [heq.1] at h1
            rw [h1] at hfs
            cases hfs
          · exact h2 ⟨c, hmem, hce, hcu⟩
        · rintro ⟨h1, h2⟩
          exact ⟨h1, fun ⟨c, hc, hce, hcu⟩ =>
            h2 ⟨c, List.mem_cons_of_mem _ hc, hce, hcu⟩⟩
    · rw [trackedLoop_cons_not_expired hexp, ih]
      constructor
      · rintro ⟨h1, h2⟩
        refine ⟨h1, ?_⟩
        rintro ⟨c, hc, hce, hcu⟩
        rcases List.mem_cons.mp hc with heq | hmem
        · rw [Prod.mk.injEq] at heq
          rw [heq.2] at hce
          exact hexp hce
        · exact h2 ⟨c, hmem, hce, hcu⟩
      · rintro ⟨h1, h2⟩
        exact ⟨h1, fun ⟨c, hc, hce, hcu⟩ =>
          h2 ⟨c, List.mem_cons_of_mem _ hc, hce, hcu⟩⟩

/-! ## Properties of the untracked pass -/

/-- The untracked loop never creates files: a path absent from the
directory stays absent. -/
theorem untrackedLoop_mono {t : Int} {m : List (FPath × Int)}
    {uf sf : List FPath} {p : FPath} :
    ∀ {ps : List FPath} {fs : Fs}, fsHas fs p = false →
      fsHas (untrackedLoop t m uf sf fs ps).1 p = false := by
  intro ps
  induction ps with
  | nil => intro fs h; simpa [untrackedLoop] using h
  | cons r rest ih =>
    intro fs h
    by_cases hm : mapHas m r = true
    · rw [untrackedLoop_cons_skip_mapped hm]; exact ih h
    · rw [Bool.not_eq_true] at hm
      by_cases hfs : fsHas fs r = true
      · by_cases hsf : r ∈ sf
        · rw [untrackedLoop_cons_stat_fail hm hfs hsf]; exact h
        · by_cases hexp : t - mtimeOf fs r > expirySeconds
          · by_cases huf : r ∈ uf
            · rw [untrackedLoop_cons_unlink_fail hm hfs hsf hexp huf]; exact ih h
            · rw [untrackedLoop_cons_unlink_ok hm hfs hsf hexp huf]
              refine ih ?_
              by_cases hpr : p = r
              · subst hpr; exact fsHas_fsRemove_self
              · rw [fsHas_fsRemove_ne hpr]; exact h
          · rw [untrackedLoop_cons_not_expired hm hfs hsf hexp]; exact ih h
      · rw [Bool.not_eq_true] at hfs
        rw [untrackedLoop_cons_skip_gone hfs]; exact ih h

/-- The untracked loop never deletes a file whose path is a key of the
in-memory map: those paths are skipped by the `not in temp_files` guard. -/
theorem untrackedLoop_preserves_mapped {t : Int} {m : List (FPath × Int)}
    {uf sf : List FPath} {p : FPath} (hp : mapHas m p = true) :
    ∀ {ps : List FPath} {fs : Fs}, fsHas fs p = true →
      fsHas (untrackedLoop t m uf sf fs ps).1 p = true := by
  intro ps
  induction ps with
  | nil => intro fs h; simpa [untrackedLoop] using h
  | cons r rest ih =>
    intro fs h
    by_cases hm : mapHas m r = true
    · rw [untrackedLoop_cons_skip_mapped hm]; exact ih h
    · rw [Bool.not_eq_true] at hm
      have hpr : p ≠ r := by
        intro he; rw [he] at hp; rw [hp] at hm; cases hm
      by_cases hfs : fsHas fs r = true
      · by_cases hsf : r ∈ sf
        · rw [untrackedLoop_cons_stat_fail hm hfs hsf]; exact h
        · by_cases hexp : t - mtimeOf fs r > expirySeconds
          · by_cases huf : r ∈ uf
            · rw [untrackedLoop_cons_unlink_fail hm hfs hsf hexp huf]; exact ih h
            · rw [untrackedLoop_cons_unlink_ok hm hfs hsf hexp huf]
              refine ih ?_
              rw [fsHas_fsRemove_ne hpr]; exact h
          · rw [untrackedLoop_cons_not_expired hm hfs hsf hexp]; exact ih h
      · rw [Bool.not_eq_true] at hfs
        rw [untrackedLoop_cons_skip_gone hfs]; exact ih h

/-- With no stat failures injected, the untracked loop deletes every
listed file that is not a map key, is expired by its mtime, and whose
unlink does not raise. -/
theorem untrackedLoop_deletes {t : Int} {m : List (FPath × Int)}
    {uf : List FPath} {p : FPath}
    (hm : mapHas m p = false) (huf : p ∉ uf) :
    ∀ {ps : List FPath} {fs : Fs}, p ∈ ps → fsHas fs p = true →
      t - mtimeOf fs p > expirySeconds →
      fsHas (untrackedLoop t m uf [] fs ps).1 p = false := by
  intro ps
  induction ps with
  | nil => intro fs hps; cases hps
  | cons r rest ih =>
    intro fs hps hfsp hexp
    by_cases hpr : p = r
    · subst hpr
      rw [untrackedLoop_cons_unlink_ok hm hfsp (List.not_mem_nil p) hexp huf]
      exact untrackedLoop_mono fsHas_fsRemove_self
    · have hps' : p ∈ rest := by
        rcases List.mem_cons.mp hps with he | hm2
        · exact absurd he hpr
        · exact hm2
      by_cases hmr : mapHas m r = true
      · rw [untrackedLoop_cons_skip_mapped hmr]; exact ih hps' hfsp hexp
      · rw [Bool.not_eq_true] at hmr
        by_cases hfsr : fsHas fs r = true
        · by_cases hexpr : t - mtimeOf fs r > expirySeconds
          · by_cases hufr : r ∈ uf
            · rw [untrackedLoop_cons_unlink_fail hmr hfsr (List.not_mem_nil r) hexpr hufr]
              exact ih hps' hfsp hexp
            · rw [untrackedLoop_cons_unlink_ok hmr hfsr (List.not_mem_nil r) hexpr hufr]
              refine ih hps' ?_ ?_
              · rw [fsHas_fsRemove_ne hpr]; exact hfsp
              · rw [mtimeOf_fsRemove_ne hpr]; exact hexp
          · rw [untrackedLoop_cons_not_expired hmr hfsr (List.not_mem_nil r) hexpr]
            exact ih hps' hfsp hexp
        · rw [Bool.not_eq_true] at hfsr
          rw [untrackedLoop_cons_skip_gone hfsr]; exact ih hps' hfsp hexp

/-- The untracked pass only ever rewrites the `fs` field: the in-memory
map and the failure injections are untouched. -/
theorem cleanup_untracked_frame {t : Int} {st : St} :
    (cleanup_untracked_files t st).tempFiles = st.tempFiles ∧
    (cleanup_untracked_files t st).unlinkFails = st.unlinkFails ∧
    (cleanup_untracked_files t st).statFails = st.statFails ∧
    (cleanup_untracked_files t st).listFails = st.listFails := by
  by_cases h : st.listFails <;>
    simp [cleanup_untracked_files, untrackedBody, h]

/-- The untracked pass never creates a file. -/
theorem cleanup_untracked_mono {t : Int} {st : St} {p : FPath}
    (h : fsHas st.fs p = false) :
    fsHas (cleanup_untracked_files t st).fs p = false := by
  by_cases hl : st.listFails
  · simpa [cleanup_untracked_files, untrackedBody, hl] using h
  · simp only [cleanup_untracked_files, untrackedBody, hl, if_neg, Bool.false_eq_true]
    exact untrackedLoop_mono h

/-- The untracked pass never deletes a file whose path is a map key. -/
theorem cleanup_untracked_preserves_mapped {t : Int} {st : St} {p : FPath}
    (hm : mapHas st.tempFiles p = true) (h : fsHas st.fs p = true) :
    fsHas (cleanup_untracked_files t st).fs p = true := by
  by_cases hl : st.listFails
  · simpa [cleanup_untracked_files, untrackedBody, hl] using h
  · simp only [cleanup_untracked_files, untrackedBody, hl, if_neg, Bool.false_eq_true]
    exact untrackedLoop_preserves_mapped hm h

/-- A path on disk appears in the directory listing. -/
theorem mem_listing_of_fsHas {fs : Fs} {p : FPath} (h : fsHas fs p = true) :
    p ∈ fs.map Prod.fst := by
  rw [fsHas_iff] at h
  obtain ⟨e, he, hep⟩ := h
  exact hep ▸ List.mem_map_of_mem Prod.fst he

/-- With no failure injections, the untracked pass deletes every on-disk
file that is not a map key and is expired by its mtime. -/
theorem cleanup_untracked_deletes {t : Int} {st : St} {p : FPath}
    (hl : st.listFails = false) (hsf : st.statFails = [])
    (huf : p ∉ st.unlinkFails) (hm : mapHas st.tempFiles p = false)
    (h : fsHas st.fs p = true) (hexp : t - mtimeOf st.fs p > expirySeconds) :
    fsHas (cleanup_untracked_files t st).fs p = false := by
  simp only [cleanup_untracked_files, untrackedBody, hl, if_neg, Bool.false_eq_true]
  rw [hsf]
  exact untrackedLoop_deletes hm huf (mem_listing_of_fsHas h) h hexp

/-- `manual_cleanup` rewrites only `fs` and `tempFiles`. -/
theorem manual_cleanup_frame {t : Int} {st : St} :
    (manual_cleanup t st).1.unlinkFails = st.unlinkFails ∧
    (manual_cleanup t st).1.statFails = st.statFails ∧
    (manual_cleanup t st).1.listFails = st.listFails := by
  simp only [manual_cleanup]
  refine ⟨?_, ?_, ?_⟩ <;>
    simp [cleanup_untracked_frame.2.1, cleanup_untracked_frame.2.2.1,
      cleanup_untracked_frame.2.2.2]

/-- The map after `manual_cleanup`: the original map with every
`files_to_remove` path popped. -/
theorem manual_cleanup_tempFiles {t : Int} {st : St} :
    (manual_cleanup t st).1.tempFiles
      = popAll st.tempFiles (trackedLoop t st.unlinkFails st.fs st.tempFiles).2 := by
  simp [manual_cleanup, cleanup_untracked_frame.1]

/-- The count returned by `manual_cleanup` is the length of the tracked
pass's `files_to_remove` list. -/
theorem manual_cleanup_count {t : Int} {st : St} :
    (manual_cleanup t st).2
      = (trackedLoop t st.unlinkFails st.fs st.tempFiles).2.length := rfl

/-! ## Remaining auxiliary lemmas -/

theorem fsRemove_of_absent {fs : Fs} {p : FPath} (h : fsHas fs p = false) :
    fsRemove fs p = fs := by
  rw [fsRemove, List.filter_eq_self]
  intro e he
  have hnone : fs.find? (fun e => e.1 == p) = none := by
    rw [fsHas] at h
    cases hf : fs.find? (fun e => e.1 == p) with
    | none => rfl
    | some x => rw [hf] at h; cases h
  rw [List.find?_eq_none] at hnone
  simpa using hnone e he

theorem readFile_cons_self {p : FPath} {e : FileEntry} {fs : Fs} :
    readFile ((p, e) :: fs) p = some e.content := by
  have hfind : (((p, e) : FPath × FileEntry) :: fs).find? (fun x => x.1 == p)
      = some (p, e) := List.find?_cons_of_pos _ (by simp)
  simp [readFile, hfind]

/-! ## Claims -/

/-- Claim C1, amended: `manual_cleanup` does not stop at the tracked
pass; it performs the tracked pass and then the untracked pass's
directory scan, folding both passes exactly as one scheduled sweep does,
and it returns the number of tracked entries removed. -/
theorem manual_cleanup_is_full_sweep :
    ∀ (t : Int) (st : St),
      (manual_cleanup t st).1 = cleanup_sweep_once t st ∧
      (manual_cleanup t st).2
        = (trackedLoop t st.unlinkFails st.fs st.tempFiles).2.length := by
  intro t st
  exact ⟨rfl, rfl⟩

/-- Claim C1, counterexample to the claim as stated: an expired file
present in the backing directory but absent from the in-memory map is
deleted by `manual_cleanup`, so manual cleanup does not leave non-key
files untouched. -/
theorem manual_cleanup_touches_untracked_cex :
    fsHas (⟨[("f", ⟨[], 0⟩)], [], [], [], false⟩ : St).fs "f" = true ∧
    mapHas (⟨[("f", ⟨[], 0⟩)], [], [], [], false⟩ : St).tempFiles "f" = false ∧
    fsHas (manual_cleanup 7201 ⟨[("f", ⟨[], 0⟩)], [], [], [], false⟩).1.fs "f"
      = false := by
  refine ⟨rfl, rfl, rfl⟩

/-- Claim C3: a payload strictly over the configured limit makes
`save_uploaded_file` report the limit and the actual size and leave the
whole state (backing directory and map included) unchanged. -/
theorem save_uploaded_file_size_limit :
    ∀ (now : Int) (uid name : String) (content : List Nat) (st : St),
      content.length > MAX_FILE_SIZE_MB * 1024 * 1024 →
      save_uploaded_file now uid name content st
        = (SaveResult.sizeError MAX_FILE_SIZE_MB content.length, st) := by
  intro now uid name content st h
  simp [save_uploaded_file, h]

/-- Witness for C3: a 50MB+1 payload is rejected with both quantities
reported and no state change. -/
theorem save_uploaded_file_size_limit_witness :
    (List.replicate 52428801 (0 : Nat)).length > MAX_FILE_SIZE_MB * 1024 * 1024 ∧
    save_uploaded_file 0 "u" "d.txt" (List.replicate 52428801 (0 : Nat))
        ⟨[], [], [], [], false⟩
      = (SaveResult.sizeError 50 52428801, ⟨[], [], [], [], false⟩) := by
  have h : (List.replicate 52428801 (0 : Nat)).length
      > MAX_FILE_SIZE_MB * 1024 * 1024 := by
    rw [List.length_replicate]
    norm_num [MAX_FILE_SIZE_MB]
  refine ⟨h, ?_⟩
  have := save_uploaded_file_size_limit 0 "u" "d.txt"
    (List.replicate 52428801 (0 : Nat)) ⟨[], [], [], [], false⟩ h
  rw [this, List.length_replicate]
  rfl

/-- Claim C4: a payload within the limit is saved: the returned path is
the backing directory plus the fresh identifier plus the original
extension (never the original base name), the bytes read back from that
path are exactly the payload, the path is registered in the map with the
current time, and (when the generated path is fresh) the directory gains
exactly that file. -/
theorem save_uploaded_file_success :
    ∀ (now : Int) (uid name : String) (content : List Nat) (st : St),
      content.length ≤ MAX_FILE_SIZE_MB * 1024 * 1024 →
      (save_uploaded_file now uid name content st).1
          = SaveResult.saved (TEMP_DIR ++ "/" ++ uid ++ splitextExt name) ∧
      readFile (save_uploaded_file now uid name content st).2.fs
          (TEMP_DIR ++ "/" ++ uid ++ splitextExt name) = some content ∧
      (TEMP_DIR ++ "/" ++ uid ++ splitextExt name, now)
          ∈ (save_uploaded_file now uid name content st).2.tempFiles ∧
      (fsHas st.fs (TEMP_DIR ++ "/" ++ uid ++ splitextExt name) = false →
        (save_uploaded_file now uid name content st).2.fs
          = (TEMP_DIR ++ "/" ++ uid ++ splitextExt name,
              ⟨content, now⟩) :: st.fs) := by
  intro now uid name content st h
  have h' : ¬ content.length > MAX_FILE_SIZE_MB * 1024 * 1024 := not_lt.mpr h
  refine ⟨by simp [save_uploaded_file, h'], ?_, ?_, ?_⟩
  · simp only [save_uploaded_file, h', if_neg, ite_false]
    exact readFile_cons_self
  · simp only [save_uploaded_file, h', if_neg, ite_false]
    exact List.mem_cons_self _ _
  · intro hfresh
    simp only [save_uploaded_file, h', if_neg, ite_false]
    rw [fsRemove_of_absent hfresh]

/-- Witness for C4: a 3-byte payload saved as `u1` + `.txt` reads back
exactly, is registered, and is the one new file. -/
theorem save_uploaded_file_success_witness :
    ([1, 2, 3] : List Nat).length ≤ MAX_FILE_SIZE_MB * 1024 * 1024 ∧
    fsHas ([] : Fs) "/tmp/markdown-converter-ui/u1.txt" = false ∧
    (save_uploaded_file 5 "u1" "doc.txt" [1, 2, 3] ⟨[], [], [], [], false⟩).1
        = SaveResult.saved "/tmp/markdown-converter-ui/u1.txt" ∧
    readFile (save_uploaded_file 5 "u1" "doc.txt" [1, 2, 3]
        ⟨[], [], [], [], false⟩).2.fs "/tmp/markdown-converter-ui/u1.txt"
        = some [1, 2, 3] ∧
    ("/tmp/markdown-converter-ui/u1.txt", (5 : Int))
        ∈ (save_uploaded_file 5 "u1" "doc.txt" [1, 2, 3]
            ⟨[], [], [], [], false⟩).2.tempFiles ∧
    (save_uploaded_file 5 "u1" "doc.txt" [1, 2, 3]
        ⟨[], [], [], [], false⟩).2.fs
        = [("/tmp/markdown-converter-ui/u1.txt", ⟨[1, 2, 3], 5⟩)] := by
  have hlen : ([1, 2, 3] : List Nat).length ≤ MAX_FILE_SIZE_MB * 1024 * 1024 := by
    norm_num [MAX_FILE_SIZE_MB]
  have hpath : TEMP_DIR ++ "/" ++ "u1" ++ splitextExt "doc.txt"
      = "/tmp/markdown-converter-ui/u1.txt" := by rfl
  obtain ⟨h1, h2, h3, h4⟩ :=
    save_uploaded_file_success 5 "u1" "doc.txt" [1, 2, 3]
      ⟨[], [], [], [], false⟩ hlen
  rw [hpath] at h1 h2 h3 h4
  exact ⟨hlen, rfl, h1, h2, h3, h4 rfl⟩

/-- Claim C6: `is_file_expired` is total; it is `false` for a missing
path, `false` on a stat failure, and otherwise `true` exactly when
`now - mtime` strictly exceeds `expiry_hours * 3600`. -/
theorem is_file_expired_spec :
    ∀ (now eh : Int) (st : St) (p : FPath),
      (fsHas st.fs p = false → is_file_expired now eh st p = false) ∧
      (p ∈ st.statFails → is_file_expired now eh st p = false) ∧
      (is_file_expired now eh st p = true ↔
        fsHas st.fs p = true ∧ p ∉ st.statFails ∧
          now - mtimeOf st.fs p > eh * 3600) := by
  intro now eh st p
  refine ⟨?_, ?_, ?_⟩
  · intro h
    simp [is_file_expired, h]
  · intro h
    by_cases hfs : fsHas st.fs p = true
    · simp [is_file_expired, hfs, statMtimeE, h]
    · rw [Bool.not_eq_true] at hfs
      simp [is_file_expired, hfs]
  · by_cases hfs : fsHas st.fs p = true
    · by_cases hsf : p ∈ st.statFails
      · simp [is_file_expired, hfs, statMtimeE, hsf]
      · simp [is_file_expired, hfs, statMtimeE_of_fsHas hsf hfs, hsf]
    · rw [Bool.not_eq_true] at hfs
      simp [is_file_expired, hfs]

/-- Witness for C6: for a present, statable file one second past the
window the predicate is true; it is false for a missing path and false
under an injected stat failure. -/
theorem is_file_expired_spec_witness :
    is_file_expired 7201 FILE_EXPIRY_HOURS
        ⟨[("f", ⟨[], 0⟩)], [], [], [], false⟩ "f" = true ∧
    is_file_expired 7201 FILE_EXPIRY_HOURS
        ⟨[("f", ⟨[], 0⟩)], [], [], [], false⟩ "g" = false ∧
    is_file_expired 7201 FILE_EXPIRY_HOURS
        ⟨[("f", ⟨[], 0⟩)], [], [], ["f"], false⟩ "f" = false := by
  refine ⟨?_, ?_, ?_⟩
  · exact (is_file_expired_spec 7201 FILE_EXPIRY_HOURS
      ⟨[("f", ⟨[], 0⟩)], [], [], [], false⟩ "f").2.2.mpr
      ⟨rfl, by simp, by norm_num [mtimeOf, FILE_EXPIRY_HOURS]⟩
  · exact (is_file_expired_spec 7201 FILE_EXPIRY_HOURS
      ⟨[("f", ⟨[], 0⟩)], [], [], [], false⟩ "g").1 rfl
  · exact (is_file_expired_spec 7201 FILE_EXPIRY_HOURS
      ⟨[("f", ⟨[], 0⟩)], [], [], ["f"], false⟩ "f").2.1 (by simp)

/-- Claim C9: no exception escapes one sweep: the body of a sweep (whose
only fallible statements are already guarded by the per-file `try` of
the tracked pass and by the untracked pass's own `try`) raises nothing,
and the sweep is the body's resulting state — for every registry state,
directory state and injected unlink/stat/listing failures. -/
theorem sweep_never_raises :
    ∀ (t : Int) (st : St),
      (sweepBody t st).2 = none ∧
      cleanup_sweep_once t st = (sweepBody t st).1 ∧
      cleanup_untracked_files t st = (untrackedBody t st).1 := by
  intro t st
  exact ⟨rfl, rfl, rfl⟩

theorem bool_eq_false {b : Bool} (h : ¬ b = true) : b = false := by
  cases b
  · rfl
  · exact absurd rfl h

/-- In a dict (keys are unique), a key determines its value. -/
theorem eq_of_mem_nodup_keys {p : FPath} {c c' : Int} :
    ∀ {m : List (FPath × Int)}, (m.map Prod.fst).Nodup →
      (p, c) ∈ m → (p, c') ∈ m → c = c' := by
  intro m
  induction m with
  | nil => intro _ h; cases h
  | cons hd tl ih =>
    intro hnd h1 h2
    rw [List.map_cons, List.nodup_cons] at hnd
    rcases List.mem_cons.mp h1 with e1 | m1
    · rcases List.mem_cons.mp h2 with e2 | m2
      · rw [← e1] at e2
        exact (Prod.mk.injEq .. ▸ e2).2.symm
      · exfalso
        refine hnd.1 ?_
        have hp : hd.1 = p := by rw [← e1]
        rw [hp]
        exact List.mem_map.mpr ⟨(p, c'), m2, rfl⟩
    · rcases List.mem_cons.mp h2 with e2 | m2
      · exfalso
        refine hnd.1 ?_
        have hp : hd.1 = p := by rw [← e2]
        rw [hp]
        exact List.mem_map.mpr ⟨(p, c), m1, rfl⟩
      · exact ih hnd.2 m1 m2

theorem mapHas_popAll_false {m : List (FPath × Int)} {ps : List FPath}
    {q : FPath} (h : mapHas m q = false) : mapHas (popAll m ps) q = false := by
  refine bool_eq_false ?_
  intro hc
  rw [mapHas_iff] at hc
  obtain ⟨e, he, hep⟩ := hc
  rw [mem_popAll] at he
  have : mapHas m q = true := mapHas_iff.mpr ⟨e, he.1, hep⟩
  rw [h] at this
  cases this

/-- `manual_cleanup` is the untracked pass applied to the state left by
the tracked pass and the pops. -/
theorem manual_cleanup_unfold {t : Int} {st : St} :
    (manual_cleanup t st).1 = cleanup_untracked_files t
      { st with fs := (trackedLoop t st.unlinkFails st.fs st.tempFiles).1,
                tempFiles :=
                  popAll st.tempFiles
                    (trackedLoop t st.unlinkFails st.fs st.tempFiles).2 } := rfl

/-- Adding a file whose path is not a key of the map changes nothing in
the tracked pass except that the new file is carried along untouched. -/
theorem trackedLoop_cons_untracked_file {t : Int} {uf : List FPath}
    {q : FPath} {e : FileEntry} :
    ∀ {items : List (FPath × Int)} {fs : Fs}, (∀ c, (q, c) ∉ items) →
      trackedLoop t uf ((q, e) :: fs) items
        = ((q, e) :: (trackedLoop t uf fs items).1,
            (trackedLoop t uf fs items).2) := by
  intro items
  induction items with
  | nil => intro fs _; simp [trackedLoop]
  | cons hd tl ih =>
    intro fs hq
    obtain ⟨p, c⟩ := hd
    have hpq : ¬ q = p := by
      intro he
      exact hq c (he ▸ List.mem_cons_self _ _)
    have hq' : ∀ c', (q, c') ∉ tl :=
      fun c' hc' => hq c' (List.mem_cons_of_mem _ hc')
    have hfs : fsHas ((q, e) :: fs) p = fsHas fs p := by
      rw [fsHas_cons]
      simp [hpq]
    by_cases hexp : t - c > expirySeconds
    · by_cases hfp : fsHas fs p = true
      · by_cases huf : p ∈ uf
        · rw [trackedLoop_cons_unlink_fail hexp (hfs.trans hfp) huf,
            trackedLoop_cons_unlink_fail hexp hfp huf]
          exact ih hq'
        · rw [trackedLoop_cons_unlink_ok hexp (hfs.trans hfp) huf,
            trackedLoop_cons_unlink_ok hexp hfp huf,
            fsRemove_cons_ne hpq, ih hq']
      · have hfp' : fsHas fs p = false := bool_eq_false hfp
        rw [trackedLoop_cons_gone hexp (hfs.trans hfp'),
          trackedLoop_cons_gone hexp hfp', ih hq']
    · rw [trackedLoop_cons_not_expired hexp, trackedLoop_cons_not_expired hexp]
      exact ih hq'

/-- Claim C2, counterexample to the claim as stated: an expired tracked
entry whose unlink raises is NOT removed from the map — the `append` to
`files_to_remove` sits after the `unlink` inside the `try`, so the
exception skips it and the entry survives `manual_cleanup`. -/
theorem unlink_failure_keeps_entry_cex :
    ("p", (0 : Int)) ∈ (⟨[("p", ⟨[], 0⟩)], [("p", 0)], ["p"], [], false⟩ : St).tempFiles ∧
    (7201 : Int) - 0 > expirySeconds ∧
    mapHas (manual_cleanup 7201
        ⟨[("p", ⟨[], 0⟩)], [("p", 0)], ["p"], [], false⟩).1.tempFiles "p" = true := by
  refine ⟨List.mem_cons_self _ _, by norm_num [expirySeconds, FILE_EXPIRY_HOURS], rfl⟩

/-- Claim C2, amended: after the tracked pass of a sweep or of manual
cleanup, an expired entry remains a key of the map exactly when its file
existed and its unlink raised; in every other case (file already gone, or
deletion succeeded) the entry is removed. -/
theorem expired_entry_removed_unless_unlink_raises :
    ∀ (t : Int) (st : St) (p : FPath) (c : Int),
      (p, c) ∈ st.tempFiles → t - c > expirySeconds →
      (mapHas (manual_cleanup t st).1.tempFiles p = true ↔
        fsHas st.fs p = true ∧ p ∈ st.unlinkFails) ∧
      (mapHas (cleanup_sweep_once t st).tempFiles p = true ↔
        fsHas st.fs p = true ∧ p ∈ st.unlinkFails) := by
  intro t st p c hmem hexp
  have main : mapHas (manual_cleanup t st).1.tempFiles p = true ↔
      fsHas st.fs p = true ∧ p ∈ st.unlinkFails := by
    rw [manual_cleanup_tempFiles, mapHas_iff]
    constructor
    · rintro ⟨e, he, hep⟩
      rw [mem_popAll] at he
      obtain ⟨_, he2⟩ := he
      rw [hep] at he2
      by_cases hfs : fsHas st.fs p = true
      · by_cases huf : p ∈ st.unlinkFails
        · exact ⟨hfs, huf⟩
        · exact absurd (trackedLoop_mem_snd.mpr ⟨c, hmem, hexp, Or.inl huf⟩) he2
      · exact absurd
          (trackedLoop_mem_snd.mpr ⟨c, hmem, hexp, Or.inr (bool_eq_false hfs)⟩) he2
    · rintro ⟨h1, h2⟩
      have hnot : p ∉ (trackedLoop t st.unlinkFails st.fs st.tempFiles).2 := by
        rw [trackedLoop_mem_snd]
        rintro ⟨c', _, _, hd⟩
        rcases hd with hd | hd
        · exact hd h2
        · rw [h1] at hd; cases hd
      exact ⟨(p, c), mem_popAll.mpr ⟨hmem, hnot⟩, rfl⟩
  exact ⟨main, main⟩

/-- Witness for C2 amended: with the unlink failure injected the expired
entry stays; without it the entry goes. -/
theorem expired_entry_removed_unless_unlink_raises_witness :
    ("p", (0 : Int)) ∈ (⟨[("p", ⟨[], 0⟩)], [("p", 0)], ["p"], [], false⟩ : St).tempFiles ∧
    (7201 : Int) - 0 > expirySeconds ∧
    mapHas (manual_cleanup 7201
        ⟨[("p", ⟨[], 0⟩)], [("p", 0)], ["p"], [], false⟩ : St × Nat).1.tempFiles "p" = true ∧
    mapHas (manual_cleanup 7201
        ⟨[("p", ⟨[], 0⟩)], [("p", 0)], [], [], false⟩ : St × Nat).1.tempFiles "p" = false := by
  have hexp : (7201 : Int) - 0 > expirySeconds := by
    norm_num [expirySeconds, FILE_EXPIRY_HOURS]
  refine ⟨List.mem_cons_self _ _, hexp, ?_, ?_⟩
  · exact (expired_entry_removed_unless_unlink_raises 7201
      ⟨[("p", ⟨[], 0⟩)], [("p", 0)], ["p"], [], false⟩ "p" 0
      (List.mem_cons_self _ _) hexp).1.mpr ⟨rfl, List.mem_cons_self _ _⟩
  · refine bool_eq_false ?_
    intro hc
    have := (expired_entry_removed_unless_unlink_raises 7201
      ⟨[("p", ⟨[], 0⟩)], [("p", 0)], [], [], false⟩ "p" 0
      (List.mem_cons_self _ _) hexp).1.mp hc
    simpa using this.2

/-- Claim C8: the untracked pass never changes the in-memory map, and
(absent injected failures) deletes every on-disk file that is not a map
key and whose mtime is older than the expiry window. -/
theorem untracked_pass_reconciles :
    ∀ (t : Int) (st : St) (p : FPath),
      (cleanup_untracked_files t st).tempFiles = st.tempFiles ∧
      (st.listFails = false → st.statFails = [] → p ∉ st.unlinkFails →
        mapHas st.tempFiles p = false → fsHas st.fs p = true →
        t - mtimeOf st.fs p > expirySeconds →
        fsHas (cleanup_untracked_files t st).fs p = false) := by
  intro t st p
  refine ⟨cleanup_untracked_frame.1, ?_⟩
  intro hl hsf huf hm h hexp
  exact cleanup_untracked_deletes hl hsf huf hm h hexp

/-- Witness for C8: an untracked file one second past the window is
deleted by the untracked pass and the map stays empty. -/
theorem untracked_pass_reconciles_witness :
    (cleanup_untracked_files 7201
        ⟨[("f", ⟨[], 0⟩)], [("k", 1)], [], [], false⟩ : St).tempFiles = [("k", 1)] ∧
    fsHas (cleanup_untracked_files 7201
        ⟨[("f", ⟨[], 0⟩)], [("k", 1)], [], [], false⟩ : St).fs "f" = false := by
  obtain ⟨h1, h2⟩ := untracked_pass_reconciles 7201
    ⟨[("f", ⟨[], 0⟩)], [("k", 1)], [], [], false⟩ "f"
  refine ⟨h1, h2 rfl rfl (List.not_mem_nil _) rfl rfl ?_⟩
  norm_num [mtimeOf, expirySeconds, FILE_EXPIRY_HOURS]

/-- Claim C5: expiry is a strict comparison.  For an entry exactly at the
window the map entry survives both manual cleanup and the sweep and the
file is not deleted; past the window (with a deletable file) the entry
and the file are gone after either. -/
theorem expiry_boundary_strict :
    ∀ (t : Int) (st : St) (p : FPath) (c : Int),
      (st.tempFiles.map Prod.fst).Nodup → (p, c) ∈ st.tempFiles →
      (t - c = expirySeconds →
        mapHas (manual_cleanup t st).1.tempFiles p = true ∧
        mapHas (cleanup_sweep_once t st).tempFiles p = true ∧
        (fsHas st.fs p = true → fsHas (manual_cleanup t st).1.fs p = true)) ∧
      (t - c > expirySeconds → p ∉ st.unlinkFails →
        mapHas (manual_cleanup t st).1.tempFiles p = false ∧
        mapHas (cleanup_sweep_once t st).tempFiles p = false ∧
        fsHas (manual_cleanup t st).1.fs p = false ∧
        fsHas (cleanup_sweep_once t st).fs p = false) := by
  intro t st p c hnd hmem
  have hsw_tf : (cleanup_sweep_once t st).tempFiles
      = (manual_cleanup t st).1.tempFiles := rfl
  have hsw_fs : (cleanup_sweep_once t st).fs = (manual_cleanup t st).1.fs := rfl
  constructor
  · intro hb
    have hnotftr : p ∉ (trackedLoop t st.unlinkFails st.fs st.tempFiles).2 := by
      rw [trackedLoop_mem_snd]
      rintro ⟨c', hc', hce', _⟩
      have hcc := eq_of_mem_nodup_keys hnd hmem hc'
      rw [← hcc, hb] at hce'
      exact lt_irrefl _ hce'
    have hmap : mapHas (manual_cleanup t st).1.tempFiles p = true := by
      rw [manual_cleanup_tempFiles]
      exact mapHas_iff.mpr ⟨(p, c), mem_popAll.mpr ⟨hmem, hnotftr⟩, rfl⟩
    refine ⟨hmap, by rw [hsw_tf]; exact hmap, ?_⟩
    intro hfs
    have hfs1 : fsHas (trackedLoop t st.unlinkFails st.fs st.tempFiles).1 p = true := by
      rw [trackedLoop_fsHas_fst]
      refine ⟨hfs, ?_⟩
      rintro ⟨c', hc', hce', _⟩
      have hcc := eq_of_mem_nodup_keys hnd hmem hc'
      rw [← hcc, hb] at hce'
      exact lt_irrefl _ hce'
    have hmap1 : mapHas (popAll st.tempFiles
        (trackedLoop t st.unlinkFails st.fs st.tempFiles).2) p = true := by
      rw [← manual_cleanup_tempFiles]
      exact hmap
    rw [manual_cleanup_unfold]
    exact cleanup_untracked_preserves_mapped hmap1 hfs1
  · intro hexp huf
    have hftr : p ∈ (trackedLoop t st.unlinkFails st.fs st.tempFiles).2 :=
      trackedLoop_mem_snd.mpr ⟨c, hmem, hexp, Or.inl huf⟩
    have hmapf : mapHas (manual_cleanup t st).1.tempFiles p = false := by
      refine bool_eq_false ?_
      intro hcon
      rw [manual_cleanup_tempFiles, mapHas_iff] at hcon
      obtain ⟨e, he, hep⟩ := hcon
      rw [mem_popAll] at he
      rw [hep] at he
      exact he.2 hftr
    have hfs1 : fsHas (trackedLoop t st.unlinkFails st.fs st.tempFiles).1 p = false := by
      refine bool_eq_false ?_
      intro hcon
      rw [trackedLoop_fsHas_fst] at hcon
      exact hcon.2 ⟨c, hmem, hexp, huf⟩
    have hfs2 : fsHas (manual_cleanup t st).1.fs p = false := by
      rw [manual_cleanup_unfold]
      exact cleanup_untracked_mono hfs1
    exact ⟨hmapf, by rw [hsw_tf]; exact hmapf, hfs2, by rw [hsw_fs]; exact hfs2⟩

/-- Witness for C5: at age exactly 7200s the entry and file survive; at
age 7201s both are gone. -/
theorem expiry_boundary_strict_witness :
    mapHas (manual_cleanup 7200
      ⟨[("b", ⟨[], 0⟩)], [("b", 0)], [], [], false⟩).1.tempFiles "b" = true ∧
    fsHas (manual_cleanup 7200
      ⟨[("b", ⟨[], 0⟩)], [("b", 0)], [], [], false⟩).1.fs "b" = true ∧
    mapHas (manual_cleanup 7201
      ⟨[("b", ⟨[], 0⟩)], [("b", 0)], [], [], false⟩).1.tempFiles "b" = false ∧
    fsHas (manual_cleanup 7201
      ⟨[("b", ⟨[], 0⟩)], [("b", 0)], [], [], false⟩).1.fs "b" = false := by
  have hnd : ((( ⟨[("b", ⟨[], 0⟩)], [("b", 0)], [], [], false⟩ : St)).tempFiles.map
      Prod.fst).Nodup := by simp
  have hmem : ("b", (0 : Int)) ∈
      (⟨[("b", ⟨[], 0⟩)], [("b", 0)], [], [], false⟩ : St).tempFiles :=
    List.mem_cons_self _ _
  obtain ⟨hb, _⟩ := expiry_boundary_strict 7200
    ⟨[("b", ⟨[], 0⟩)], [("b", 0)], [], [], false⟩ "b" 0 hnd hmem
  obtain ⟨h1, _, h3⟩ := hb (by norm_num [expirySeconds, FILE_EXPIRY_HOURS])
  obtain ⟨_, he⟩ := expiry_boundary_strict 7201
    ⟨[("b", ⟨[], 0⟩)], [("b", 0)], [], [], false⟩ "b" 0 hnd hmem
  obtain ⟨h4, _, h5, _⟩ := he
    (by norm_num [expirySeconds, FILE_EXPIRY_HOURS]) (List.not_mem_nil _)
  exact ⟨h1, h3 rfl, h4, h5⟩

/-- Claim C7: a second `manual_cleanup` immediately after a first (same
clock reading, no saves in between) removes nothing: its returned count
is zero, for every starting state, unlink failures included. -/
theorem manual_cleanup_idempotent :
    ∀ (t : Int) (st : St), (manual_cleanup t (manual_cleanup t st).1).2 = 0 := by
  intro t st
  rw [manual_cleanup_count, List.length_eq_zero, List.eq_nil_iff_forall_not_mem]
  intro p hp
  rw [trackedLoop_mem_snd] at hp
  obtain ⟨c, hc, hce, hd⟩ := hp
  have htf : (manual_cleanup t st).1.tempFiles
      = popAll st.tempFiles (trackedLoop t st.unlinkFails st.fs st.tempFiles).2 :=
    manual_cleanup_tempFiles
  have hc' := hc
  rw [htf, mem_popAll] at hc'
  obtain ⟨hcm, hcn⟩ := hc'
  have hkey : p ∈ st.unlinkFails ∧ fsHas st.fs p = true := by
    by_cases hfs : fsHas st.fs p = true
    · by_cases huf : p ∈ st.unlinkFails
      · exact ⟨huf, hfs⟩
      · exact absurd (trackedLoop_mem_snd.mpr ⟨c, hcm, hce, Or.inl huf⟩) hcn
    · exact absurd (trackedLoop_mem_snd.mpr
        ⟨c, hcm, hce, Or.inr (bool_eq_false hfs)⟩) hcn
  rcases hd with hd | hd
  · rw [manual_cleanup_frame.1] at hd
    exact hd hkey.1
  · have hfs1 : fsHas (trackedLoop t st.unlinkFails st.fs st.tempFiles).1 p = true := by
      rw [trackedLoop_fsHas_fst]
      refine ⟨hkey.2, ?_⟩
      rintro ⟨c', _, _, hu⟩
      exact hu hkey.1
    have hmap1 : mapHas (popAll st.tempFiles
        (trackedLoop t st.unlinkFails st.fs st.tempFiles).2) p = true := by
      rw [← htf]
      exact mapHas_iff.mpr ⟨(p, c), hc, rfl⟩
    have hfs2 : fsHas (manual_cleanup t st).1.fs p = true := by
      rw [manual_cleanup_unfold]
      exact cleanup_untracked_preserves_mapped hmap1 hfs1
    rw [hfs2] at hd
    cases hd

/-- Claim C10: the count returned by `manual_cleanup` counts only tracked
removals: adding an untracked expired file to the backing directory
leaves the returned count unchanged even though that file is deleted
during the same invocation. -/
theorem manual_count_excludes_untracked :
    ∀ (t : Int) (st : St) (q : FPath) (e : FileEntry),
      mapHas st.tempFiles q = false → st.listFails = false →
      st.statFails = [] → q ∉ st.unlinkFails → t - e.mtime > expirySeconds →
      (manual_cleanup t { st with fs := (q, e) :: st.fs }).2
          = (manual_cleanup t st).2 ∧
      fsHas (manual_cleanup t { st with fs := (q, e) :: st.fs }).1.fs q
          = false := by
  intro t st q e hm hl hsf huf hexp
  have hnotin : ∀ c, (q, c) ∉ st.tempFiles := mapHas_false_iff.mp hm
  have hcons := @trackedLoop_cons_untracked_file t st.unlinkFails q e
    st.tempFiles st.fs hnotin
  have hfs' : (trackedLoop t st.unlinkFails ((q, e) :: st.fs) st.tempFiles).1
      = (q, e) :: (trackedLoop t st.unlinkFails st.fs st.tempFiles).1 := by
    rw [hcons]
  have hsnd : (trackedLoop t st.unlinkFails ((q, e) :: st.fs) st.tempFiles).2
      = (trackedLoop t st.unlinkFails st.fs st.tempFiles).2 := by
    rw [hcons]
  constructor
  · rw [manual_cleanup_count, manual_cleanup_count]
    rw [show ({ st with fs := (q, e) :: st.fs } : St).unlinkFails
      = st.unlinkFails from rfl]
    rw [show ({ st with fs := (q, e) :: st.fs } : St).fs
      = (q, e) :: st.fs from rfl]
    rw [show ({ st with fs := (q, e) :: st.fs } : St).tempFiles
      = st.tempFiles from rfl]
    rw [hsnd]
  · rw [manual_cleanup_unfold]
    apply cleanup_untracked_deletes
    · exact hl
    · exact hsf
    · exact huf
    · exact mapHas_popAll_false hm
    · rw [show ({ st with fs := (q, e) :: st.fs } : St).unlinkFails
        = st.unlinkFails from rfl]
      rw [show ({ st with fs := (q, e) :: st.fs } : St).fs
        = (q, e) :: st.fs from rfl]
      rw [show ({ st with fs := (q, e) :: st.fs } : St).tempFiles
        = st.tempFiles from rfl]
      rw [hfs', fsHas_cons]
      simp
    · rw [show ({ st with fs := (q, e) :: st.fs } : St).unlinkFails
        = st.unlinkFails from rfl]
      rw [show ({ st with fs := (q, e) :: st.fs } : St).fs
        = (q, e) :: st.fs from rfl]
      rw [show ({ st with fs := (q, e) :: st.fs } : St).tempFiles
        = st.tempFiles from rfl]
      rw [hfs', mtimeOf_cons_self]
      exact hexp

/-- Witness for C10: with one expired tracked entry, adding an expired
untracked file keeps the count at 1 while the untracked file is deleted
too. -/
theorem manual_count_excludes_untracked_witness :
    mapHas ([("tr", (0 : Int))]) "u" = false ∧
    (manual_cleanup 7201
      ⟨[("u", ⟨[], 0⟩), ("tr", ⟨[], 0⟩)], [("tr", 0)], [], [], false⟩).2 = 1 ∧
    (manual_cleanup 7201
      ⟨[("tr", ⟨[], 0⟩)], [("tr", 0)], [], [], false⟩).2 = 1 ∧
    fsHas (manual_cleanup 7201
      ⟨[("u", ⟨[], 0⟩), ("tr", ⟨[], 0⟩)], [("tr", 0)], [], [], false⟩).1.fs "u"
      = false := by
  obtain ⟨h1, h2⟩ := manual_count_excludes_untracked 7201
    ⟨[("tr", ⟨[], 0⟩)], [("tr", 0)], [], [], false⟩ "u" ⟨[], 0⟩
    rfl rfl rfl (List.not_mem_nil _)
    (by norm_num [expirySeconds, FILE_EXPIRY_HOURS])
  refine ⟨rfl, ?_, rfl, h2⟩
  rw [h1]
  rfl
